import Mathlib

set_option linter.unusedVariables false

/-!
Verification of the TelumDB tensor-storage and script-parsing core.

The definitions below are a shallow embedding of the Go source:

* `pkg/storage/tensor.go` — chunked tensor store (`StoreChunk`, `GetChunk`,
  `Slice`, `Reshape`) over a dense `float32` buffer.  Buffer elements are
  modelled as their 32-bit IEEE-754 bit patterns (`Nat` below `2 ^ 32`);
  the only inspection the store performs on values is the NaN/Inf test,
  which depends solely on the exponent field of the bit pattern.  Byte
  buffers are lists of `Nat` (each below 256), and the unsafe pointer
  reinterpretation between `[]byte` and `[]float32` is modelled as the
  little-endian grouping of four bytes into one word.
* `pkg/storage/engine.go` (emitted in the repository inside
  `condition.go`) — the engine catalog, with the sqlite `tensors` table
  modelled as a list of registered names and the per-tensor blob files as
  an association list.  Writing a blob file can fail in Go; that failure
  is injected through an explicit `saveOk` flag.
* `pkg/parser/script.go` — statement splitter, classifier and validator.
  Scripts are lists of characters; Go's `bufio.Scanner` line splitting and
  the byte-offset bookkeeping of `Parse` are reproduced exactly, including
  the offset accounting of multi-line statements.

Go panics (out-of-range slice indexing) are modelled as an explicit
`crash` result, distinct from an error return.
-/

namespace TelumDB

/-- Product of a list of Go integers, as computed by the repeated
`size *= dim` loops of the source. -/
def prodInt (l : List Int) : Int := l.foldl (· * ·) 1

/-- Unfolding lemma: the fold-based product of a cons. -/
theorem prodInt_cons (d : Int) (ds : List Int) : prodInt (d :: ds) = d * prodInt ds := by
  simp only [prodInt, ← List.prod_eq_foldl, List.prod_cons]

/-- The product of the empty list of dimensions. -/
theorem prodInt_nil : prodInt [] = 1 := rfl

/-- Two's-complement wrap to 64 bits: Go's `int` is `int64` on the target
platform, so each multiplication in the size loops wraps modulo `2 ^ 64`
into the signed range. -/
def wrapInt64 (n : Int) : Int := (n + 2 ^ 63) % 2 ^ 64 - 2 ^ 63

/-- The `size := 1; size *= dim` loops of the source computed with Go's
wrapping `int64` multiplication. -/
def prodInt64 (l : List Int) : Int := l.foldl (fun acc d => wrapInt64 (acc * d)) 1

/-- Models `bytesToFloat32Slice`: reinterpret a byte buffer as float32 words
(little-endian grouping of four bytes), failing when the length is not a
multiple of four.  The Go function returns `nil` in that case. -/
def bytesToFloat32Slice : List Nat → Option (List Nat)
  | [] => some []
  | b0 :: b1 :: b2 :: b3 :: rest =>
    (bytesToFloat32Slice rest).map
      fun ws => (b0 + 256 * b1 + 65536 * b2 + 16777216 * b3) :: ws
  | _ => none

/-- Models `float32SliceToBytes`: the inverse reinterpretation, splitting each
32-bit word into its four little-endian bytes. -/
def float32SliceToBytes : List Nat → List Nat
  | [] => []
  | w :: ws =>
    w % 256 :: w / 256 % 256 :: w / 65536 % 256 :: w / 16777216 % 256 ::
      float32SliceToBytes ws

/-- A float32 bit pattern is NaN or an infinity exactly when its exponent
field (bits 23..30) is all ones; this is the condition
`math.IsNaN(float64(v)) || math.IsInf(float64(v), 0)` tests, since the
float32-to-float64 conversion preserves the NaN/Inf/finite classification. -/
def isNonFinite (w : Nat) : Bool := decide (w / 8388608 % 256 = 255)

/-- Grouping bytes into words succeeds exactly on lengths divisible by four,
and produces a quarter as many words. -/
theorem bytesToFloat32Slice_length (bs ws : List Nat)
    (h : bytesToFloat32Slice bs = some ws) : 4 * ws.length = bs.length := by
  induction ws generalizing bs with
  | nil =>
    match bs with
    | [] => rfl
    | [_] => simp [bytesToFloat32Slice] at h
    | [_, _] => simp [bytesToFloat32Slice] at h
    | [_, _, _] => simp [bytesToFloat32Slice] at h
    | _ :: _ :: _ :: _ :: rest =>
      simp only [bytesToFloat32Slice, Option.map_eq_some'] at h
      obtain ⟨_, _, h⟩ := h
      exact absurd h (by simp)
  | cons w ws ih =>
    match bs with
    | [] => simp [bytesToFloat32Slice] at h
    | [_] => simp [bytesToFloat32Slice] at h
    | [_, _] => simp [bytesToFloat32Slice] at h
    | [_, _, _] => simp [bytesToFloat32Slice] at h
    | b0 :: b1 :: b2 :: b3 :: rest =>
      simp only [bytesToFloat32Slice, Option.map_eq_some'] at h
      obtain ⟨ws', hrest, hcons⟩ := h
      injection hcons with hw hws
      subst hws
      have := ih rest hrest
      simp only [List.length_cons]
      omega

/-- Splitting the words produced from a byte buffer recovers the original
bytes, provided every entry really is a byte. -/
theorem float32SliceToBytes_of_bytesToFloat32Slice (bs ws : List Nat)
    (hlt : ∀ b ∈ bs, b < 256) (h : bytesToFloat32Slice bs = some ws) :
    float32SliceToBytes ws = bs := by
  induction ws generalizing bs with
  | nil =>
    match bs with
    | [] => rfl
    | [_] => simp [bytesToFloat32Slice] at h
    | [_, _] => simp [bytesToFloat32Slice] at h
    | [_, _, _] => simp [bytesToFloat32Slice] at h
    | _ :: _ :: _ :: _ :: rest =>
      simp only [bytesToFloat32Slice, Option.map_eq_some'] at h
      obtain ⟨_, _, h⟩ := h
      exact absurd h (by simp)
  | cons w ws ih =>
    match bs with
    | [] => simp [bytesToFloat32Slice] at h
    | [_] => simp [bytesToFloat32Slice] at h
    | [_, _] => simp [bytesToFloat32Slice] at h
    | [_, _, _] => simp [bytesToFloat32Slice] at h
    | b0 :: b1 :: b2 :: b3 :: rest =>
      simp only [bytesToFloat32Slice, Option.map_eq_some'] at h
      obtain ⟨ws', hrest, hcons⟩ := h
      injection hcons with hw' hws'
      have hw : w = b0 + 256 * b1 + 65536 * b2 + 16777216 * b3 := hw'.symm
      have hws : ws = ws' := hws'.symm
      have hb0 : b0 < 256 := hlt b0 (by simp)
      have hb1 : b1 < 256 := hlt b1 (by simp)
      have hb2 : b2 < 256 := hlt b2 (by simp)
      have hb3 : b3 < 256 := hlt b3 (by simp)
      have htail := ih rest (fun b hb => hlt b (by simp [hb])) (hws ▸ hrest)
      simp only [float32SliceToBytes, htail, hw]
      have e0 : (b0 + 256 * b1 + 65536 * b2 + 16777216 * b3) % 256 = b0 := by omega
      have e1 : (b0 + 256 * b1 + 65536 * b2 + 16777216 * b3) / 256 % 256 = b1 := by omega
      have e2 : (b0 + 256 * b1 + 65536 * b2 + 16777216 * b3) / 65536 % 256 = b2 := by omega
      have e3 : (b0 + 256 * b1 + 65536 * b2 + 16777216 * b3) / 16777216 % 256 = b3 := by
        omega
      rw [e0, e1, e2, e3]

/-- Models `TensorSchema` from `pkg/storage/engine.go`: shape, element type
name and chunk shape.  The `Compression` tag is carried verbatim; the
free-form metadata map is opaque to every claim and is omitted. -/
structure TensorSchema where
  Shape : List Int
  DType : String
  ChunkSize : List Int
  Compression : String
deriving Repr, DecidableEq

/-- Models `tensorImpl`: a named tensor owning a dense buffer of float32
elements, represented by their bit patterns. -/
structure Tensor where
  name : String
  schema : TensorSchema
  data : List Nat
deriving Repr, DecidableEq

/-- A tensor together with its on-disk blob (`tensor_<name>.bin`), so that
the eager persistence performed by `save` is observable. -/
structure TensorState where
  tensor : Tensor
  disk : List Nat
deriving Repr, DecidableEq

/-- Outcome of `StoreChunk`.  Go mutates the receiver in place and returns an
`error`; both the success state and the error state therefore carry the
resulting `TensorState`.  A `crash` models a Go runtime panic
(out-of-range slice indexing), which is neither a write nor an error
return. -/
inductive ChunkWriteResult where
  | ok (s : TensorState)
  | fail (s : TensorState) (msg : String)
  | crash (msg : String)
deriving Repr, DecidableEq

/-- Outcome of `GetChunk`: the returned byte buffer, an error, or a panic. -/
inductive ChunkReadResult where
  | ok (bytes : List Nat)
  | fail (msg : String)
  | crash (msg : String)
deriving Repr, DecidableEq

/-- Row-major accumulation of `calculateFlatIndex`: the loop from the last
dimension inward computes `sum_i indices[i] * prod_{j>i} shape[j]`. -/
def rmFlat : List Int → List Int → Int
  | dim :: dims, idx :: idxs => idx * prodInt dims + rmFlat dims idxs
  | _, _ => 0

/-- Models `calculateFlatIndex`: returns 0 on a rank mismatch, otherwise the
row-major flat index. -/
def calculateFlatIndex (shape indices : List Int) : Int :=
  if indices.length ≠ shape.length then 0 else rmFlat shape indices

/-- Helper for `flatToMultiDimIndex`, consuming the shape from its last
dimension first (the source loop runs `i` downward): each step takes
`flat % shape[i]` and divides.  Go's `%` and `/` truncate toward zero,
which is `Int.tmod` / `Int.tdiv`. -/
def flatToMultiRev : Int → List Int → List Int
  | _, [] => []
  | flat, dim :: dims => Int.tmod flat dim :: flatToMultiRev (Int.tdiv flat dim) dims

/-- Models `flatToMultiDimIndex`. -/
def flatToMultiDimIndex (flat : Int) (shape : List Int) : List Int :=
  (flatToMultiRev flat shape.reverse).reverse

/-- Models `calculateChunkSize`: 1 for an empty chunk shape, otherwise the
product of the chunk dimensions. -/
def calculateChunkSize (schema : TensorSchema) : Int :=
  if schema.ChunkSize.isEmpty then 1 else prodInt schema.ChunkSize

/-- The scaling loop of `calculateChunkStartIndex`: multiplies each chunk
index by its chunk stride, reading `ChunkSize[i]` unconditionally.  When the
chunk-shape list is shorter than the index vector that read panics in Go,
modelled here by `none`. -/
def chunkScaledIndices : List Int → List Int → Option (List Int)
  | [], _ => some []
  | idx :: idxs, c :: cs =>
    (chunkScaledIndices idxs cs).map fun r => idx * (if c = 0 then 1 else c) :: r
  | _ :: _, [] => none

/-- The index-validation loop shared by `StoreChunk` and `GetChunk`: each
index must be non-negative, and when dimension `i` still has a chunk-shape
entry (`i < len(ChunkSize)` in the source) it must be below the per-dimension
chunk count `ceil(shape[i] / chunk[i])`, computed as
`(shape[i]+chunk[i]-1)/chunk[i]` with Go's truncating division. -/
def checkChunkIndices : List Int → List Int → List Int → Option String
  | [], _, _ => none
  | idx :: idxs, dim :: dims, cs =>
    if idx < 0 then some "negative index"
    else
      match cs with
      | c :: cs' =>
        if (dim + c - 1).tdiv c ≤ idx then some "chunk index exceeds dimension size"
        else checkChunkIndices idxs dims cs'
      | [] => checkChunkIndices idxs dims []
  | _ :: _, [], _ => none

/-- Outcome of the element-writing loop of `StoreChunk`: either the fully
updated buffer, or the position of the first NaN/Inf element together with
the partially updated buffer left behind by the in-place writes. -/
inductive StoreLoopResult where
  | ok (data : List Nat)
  | fail (pos : Nat) (data : List Nat)
deriving Repr, DecidableEq

/-- The writing loop of `StoreChunk`: validates each element for NaN/Inf
before writing it at `start + i`, returning early (with the writes so far
still in place) on the first invalid element. -/
def storeLoop (data : List Nat) (start : Nat) : List Nat → Nat → StoreLoopResult
  | [], _ => .ok data
  | w :: ws, i =>
    if isNonFinite w then .fail i data
    else storeLoop (data.set (start + i) w) start ws (i + 1)

/-- Models `StoreChunk`: validation (rank, per-dimension chunk bounds,
non-empty payload, byte-multiple-of-four, chunk-size match, flat bounds),
then the element-writing loop, then `save`, which rewrites the on-disk blob
from the full buffer.  The blob write itself is modelled as reliable. -/
def StoreChunk (s : TensorState) (indices : List Int) (payload : List Nat) :
    ChunkWriteResult :=
  let t := s.tensor
  if indices.length ≠ t.schema.Shape.length then
    .fail s "indices length does not match tensor dimensions"
  else match checkChunkIndices indices t.schema.Shape t.schema.ChunkSize with
  | some msg => .fail s msg
  | none =>
    if payload.isEmpty then .fail s "empty data provided"
    else match bytesToFloat32Slice payload with
    | none => .fail s "invalid data format: byte length must be multiple of 4"
    | some floatData =>
      let chunkSize := calculateChunkSize t.schema
      if (floatData.length : Int) ≠ chunkSize then
        .fail s "data size does not match expected chunk size"
      else match chunkScaledIndices indices t.schema.ChunkSize with
      | none => .crash "index out of range"
      | some scaled =>
        let startFlatIndex := calculateFlatIndex t.schema.Shape scaled
        if startFlatIndex < 0 ∨ (t.data.length : Int) < startFlatIndex + chunkSize then
          .fail s "chunk indices out of bounds"
        else match storeLoop t.data startFlatIndex.toNat floatData 0 with
        | .fail pos data' =>
          .fail { s with tensor := { t with data := data' } }
            ("invalid value at position " ++ toString pos ++ ": NaN or Inf")
        | .ok data' =>
          .ok { tensor := { t with data := data' }, disk := float32SliceToBytes data' }

/-- Models `GetChunk`: mirror validation, then a freshly allocated byte view
of the addressed region of the buffer. -/
def GetChunk (t : Tensor) (indices : List Int) : ChunkReadResult :=
  if indices.length ≠ t.schema.Shape.length then
    .fail "indices length does not match tensor dimensions"
  else match checkChunkIndices indices t.schema.Shape t.schema.ChunkSize with
  | some msg => .fail msg
  | none =>
    let chunkSize := calculateChunkSize t.schema
    if chunkSize ≤ 0 then .fail "invalid chunk size"
    else match chunkScaledIndices indices t.schema.ChunkSize with
    | none => .crash "index out of range"
    | some scaled =>
      let startFlatIndex := calculateFlatIndex t.schema.Shape scaled
      if startFlatIndex < 0 ∨ (t.data.length : Int) < startFlatIndex + chunkSize then
        .fail "chunk indices out of bounds"
      else
        .ok (float32SliceToBytes ((t.data.drop startFlatIndex.toNat).take chunkSize.toNat))

/-- Taking one element past an in-bounds update splits off the written value. -/
theorem take_succ_set (w : Nat) :
    ∀ (data : List Nat) (k : Nat), k < data.length →
      (data.set k w).take (k + 1) = data.take k ++ [w] := by
  intro data
  induction data with
  | nil => intro k hk; simp at hk
  | cons d ds ih =>
    intro k hk
    cases k with
    | zero => simp
    | succ k =>
      simp only [List.set_cons_succ, List.take_succ_cons, List.cons_append]
      rw [ih k (by simpa using Nat.lt_of_succ_lt_succ hk)]

/-- Dropping strictly past an updated position ignores the update. -/
theorem drop_set_ge (w : Nat) (data : List Nat) (k m : Nat) (h : k < m) :
    (data.set k w).drop m = data.drop m := by
  rw [List.drop_set, if_pos h]

/-- A successful pass of the writing loop replaces the addressed region of
the buffer with the payload words and leaves everything else intact. -/
theorem storeLoop_ok (ws : List Nat) :
    ∀ (data : List Nat) (start i : Nat) (data' : List Nat),
      start + i + ws.length ≤ data.length →
      storeLoop data start ws i = .ok data' →
      data' = data.take (start + i) ++ ws ++ data.drop (start + i + ws.length) := by
  induction ws with
  | nil =>
    intro data start i data' hlen h
    injection h with h
    simp [← h]
  | cons w ws ih =>
    intro data start i data' hlen h
    simp only [storeLoop] at h
    by_cases hw : isNonFinite w
    · rw [if_pos hw] at h; exact absurd h (by simp)
    · rw [if_neg hw] at h
      have hk : start + i < data.length := by
        simp only [List.length_cons] at hlen; omega
      have hlen' : start + (i + 1) + ws.length ≤ (data.set (start + i) w).length := by
        simp only [List.length_set, List.length_cons] at hlen ⊢; omega
      have hrec := ih (data.set (start + i) w) start (i + 1) data' hlen' h
      have e1 : start + (i + 1) = start + i + 1 := by omega
      rw [e1, take_succ_set w data (start + i) hk,
        drop_set_ge w data (start + i) (start + i + 1 + ws.length) (by omega)] at hrec
      rw [hrec]
      have e2 : start + i + 1 + ws.length = start + i + (w :: ws).length := by
        simp only [List.length_cons]; omega
      rw [e2]
      simp [List.append_assoc]

/-- The writing loop stops at the first NaN/Inf word, reporting its payload
position, with the words before it already written into the buffer. -/
theorem storeLoop_first_invalid (pre : List Nat) :
    ∀ (w : Nat) (rest data : List Nat) (start i : Nat),
      (∀ x ∈ pre, isNonFinite x = false) → isNonFinite w = true →
      start + i + pre.length ≤ data.length →
      storeLoop data start (pre ++ w :: rest) i =
        .fail (i + pre.length)
          (data.take (start + i) ++ pre ++ data.drop (start + i + pre.length)) := by
  induction pre with
  | nil =>
    intro w rest data start i hfin hw hlen
    simp [storeLoop, if_pos hw]
  | cons p pre ih =>
    intro w rest data start i hfin hw hlen
    have hp : isNonFinite p = false := hfin p (by simp)
    simp only [List.cons_append, storeLoop, hp, Bool.false_eq_true, if_false,
      List.append_eq]
    have hk : start + i < data.length := by
      simp only [List.length_cons] at hlen; omega
    have hlen' : start + (i + 1) + pre.length ≤ (data.set (start + i) p).length := by
      simp only [List.length_set, List.length_cons] at hlen ⊢; omega
    rw [ih w rest (data.set (start + i) p) start (i + 1)
      (fun x hx => hfin x (by simp [hx])) hw hlen']
    have e1 : start + (i + 1) = start + i + 1 := by omega
    rw [e1, take_succ_set p data (start + i) hk,
      drop_set_ge p data (start + i) (start + i + 1 + pre.length) (by omega)]
    have e2 : start + i + 1 + pre.length = start + i + (p :: pre).length := by
      simp only [List.length_cons]; omega
    rw [e2]
    have e3 : i + 1 + pre.length = i + (p :: pre).length := by
      simp only [List.length_cons]; omega
    rw [e3]
    simp [List.append_assoc]

/-- Dropping the length of a left factor of an append yields the right factor. -/
theorem drop_len_append (A B : List Nat) : (A ++ B).drop A.length = B := by
  simp [List.drop_append_eq_append_drop]

/-- Taking the length of a left factor of an append yields the left factor. -/
theorem take_len_append (A B : List Nat) : (A ++ B).take A.length = A := by
  simp [List.take_append_eq_append_take]

/-- C1. For every tensor, every chunk-index vector and every payload of
bytes, if `StoreChunk` succeeds (which in particular means the indices were
valid and the payload carried exactly the chunk's worth of finite float32
elements), then `GetChunk` at the same indices, performed immediately
afterwards on the resulting state, returns exactly the stored bytes. -/
theorem storeChunk_getChunk_roundtrip (s : TensorState) (indices : List Int)
    (payload : List Nat) (s' : TensorState)
    (hbyte : ∀ b ∈ payload, b < 256)
    (hstore : StoreChunk s indices payload = .ok s') :
    GetChunk s'.tensor indices = .ok payload := by
  simp only [StoreChunk] at hstore
  split at hstore
  · exact absurd hstore (by simp)
  next hrank =>
  split at hstore
  next msg hchk => exact absurd hstore (by simp)
  next hchk =>
  split at hstore
  · exact absurd hstore (by simp)
  next hne =>
  split at hstore
  next hbw => exact absurd hstore (by simp)
  next floatData hbw =>
  split at hstore
  · exact absurd hstore (by simp)
  next hsize =>
  split at hstore
  next hsc => exact absurd hstore (by simp)
  next scaled hsc =>
  split at hstore
  · exact absurd hstore (by simp)
  next hbound =>
  split at hstore
  next pos data' hloop => exact absurd hstore (by simp)
  next data' hloop =>
  injection hstore with hs'
  subst hs'
  push_neg at hbound
  obtain ⟨hstart_nonneg, hfit⟩ := hbound
  have hsize' : (floatData.length : Int) = calculateChunkSize s.tensor.schema := by
    by_contra hc; exact hsize hc
  have hplen := bytesToFloat32Slice_length payload floatData hbw
  have hpayload_ne : payload ≠ [] := by
    intro hnil; rw [hnil] at hne; exact hne rfl
  have hfd_pos : 0 < floatData.length := by
    rcases payload with _ | ⟨b, bs⟩
    · exact absurd rfl hpayload_ne
    · simp only [List.length_cons] at hplen; omega
  have hfit' : (calculateFlatIndex s.tensor.schema.Shape scaled).toNat +
      floatData.length ≤ s.tensor.data.length := by omega
  have hdata' := storeLoop_ok floatData s.tensor.data
    (calculateFlatIndex s.tensor.schema.Shape scaled).toNat 0 data' (by omega) hloop
  simp only [Nat.add_zero] at hdata'
  have htklen : (s.tensor.data.take
      (calculateFlatIndex s.tensor.schema.Shape scaled).toNat).length =
      (calculateFlatIndex s.tensor.schema.Shape scaled).toNat := by
    rw [List.length_take]; omega
  have hlen' : data'.length = s.tensor.data.length := by
    rw [hdata']
    simp only [List.length_append, List.length_drop, htklen]
    omega
  have hcs_pos : ¬calculateChunkSize s.tensor.schema ≤ 0 := by omega
  have hbound2 : ¬(calculateFlatIndex s.tensor.schema.Shape scaled < 0 ∨
      (data'.length : Int) < calculateFlatIndex s.tensor.schema.Shape scaled +
        calculateChunkSize s.tensor.schema) := by
    push_neg
    exact ⟨by omega, by rw [hlen']; omega⟩
  simp only [GetChunk, if_neg hrank, hchk, hsc, if_neg hcs_pos, if_neg hbound2]
  have hdrop : data'.drop (calculateFlatIndex s.tensor.schema.Shape scaled).toNat =
      floatData ++ s.tensor.data.drop
        ((calculateFlatIndex s.tensor.schema.Shape scaled).toNat + floatData.length) := by
    rw [hdata', List.append_assoc]
    have hda := drop_len_append
      (s.tensor.data.take (calculateFlatIndex s.tensor.schema.Shape scaled).toNat)
      (floatData ++ s.tensor.data.drop
        ((calculateFlatIndex s.tensor.schema.Shape scaled).toNat + floatData.length))
    rw [htklen] at hda
    exact hda
  have hcsnat : (calculateChunkSize s.tensor.schema).toNat = floatData.length := by omega
  rw [hdrop, hcsnat, take_len_append]
  rw [float32SliceToBytes_of_bytesToFloat32Slice payload floatData hbyte hbw]

/-- C1 witness: storing the float32 1.0 into chunk 1 of a one-dimensional
tensor of shape 2 with chunk shape 1, then fetching that chunk, returns the
stored four bytes. -/
theorem storeChunk_getChunk_roundtrip_witness :
    GetChunk
      { name := "t"
        schema := ⟨[2], "float32", [1], "none"⟩
        data := [0, 1065353216] } [1] = .ok [0, 0, 128, 63] :=
  storeChunk_getChunk_roundtrip
    { tensor :=
        { name := "t"
          schema := ⟨[2], "float32", [1], "none"⟩
          data := [0, 0] }
      disk := [] }
    [1] [0, 0, 128, 63]
    { tensor :=
        { name := "t"
          schema := ⟨[2], "float32", [1], "none"⟩
          data := [0, 1065353216] }
      disk := [0, 0, 0, 0, 0, 0, 128, 63] }
    (by decide) (by decide)

/-- C10. When every validation passes but the payload's first NaN or Inf
element sits at payload position `p` (here `p = pre.length`), `StoreChunk`
returns the invalid-value error carrying a state whose disk blob is the
original one — the save step is never reached — while the in-memory buffer
already holds the payload prefix that preceded the offending element at
positions `start .. start + p - 1`. -/
theorem storeChunk_invalid_value_partial_write (s : TensorState)
    (indices scaled : List Int) (payload pre : List Nat) (w : Nat) (rest : List Nat)
    (hrank : indices.length = s.tensor.schema.Shape.length)
    (hchk : checkChunkIndices indices s.tensor.schema.Shape
      s.tensor.schema.ChunkSize = none)
    (hne : payload ≠ [])
    (hbw : bytesToFloat32Slice payload = some (pre ++ w :: rest))
    (hsize : ((pre ++ w :: rest).length : Int) = calculateChunkSize s.tensor.schema)
    (hsc : chunkScaledIndices indices s.tensor.schema.ChunkSize = some scaled)
    (hfin : ∀ x ∈ pre, isNonFinite x = false)
    (hw : isNonFinite w = true)
    (hnn : 0 ≤ calculateFlatIndex s.tensor.schema.Shape scaled)
    (hfit : calculateFlatIndex s.tensor.schema.Shape scaled +
      calculateChunkSize s.tensor.schema ≤ (s.tensor.data.length : Int)) :
    StoreChunk s indices payload =
      .fail
        { s with
            tensor :=
              { s.tensor with
                  data := s.tensor.data.take
                      (calculateFlatIndex s.tensor.schema.Shape scaled).toNat ++
                    pre ++
                    s.tensor.data.drop
                      ((calculateFlatIndex s.tensor.schema.Shape scaled).toNat +
                        pre.length) } }
        ("invalid value at position " ++ toString pre.length ++ ": NaN or Inf") := by
  have hlenlist : pre.length < (pre ++ w :: rest).length := by
    simp [List.length_append]
  have hpre_fit : (calculateFlatIndex s.tensor.schema.Shape scaled).toNat + 0 +
      pre.length ≤ s.tensor.data.length := by omega
  have hempty : ¬payload.isEmpty = true := by
    cases payload with
    | nil => exact absurd rfl hne
    | cons b bs => simp [List.isEmpty]
  have hloop := storeLoop_first_invalid pre w rest s.tensor.data
    (calculateFlatIndex s.tensor.schema.Shape scaled).toNat 0
    hfin hw hpre_fit
  simp only [Nat.add_zero, Nat.zero_add] at hloop
  have hbound : ¬(calculateFlatIndex s.tensor.schema.Shape scaled < 0 ∨
      (s.tensor.data.length : Int) < calculateFlatIndex s.tensor.schema.Shape scaled +
        calculateChunkSize s.tensor.schema) := by
    push_neg
    exact ⟨hnn, by omega⟩
  simp only [StoreChunk, if_neg (by omega : ¬indices.length ≠ s.tensor.schema.Shape.length),
    hchk, if_neg hempty, hbw, if_neg (by omega : ¬((pre ++ w :: rest).length : Int) ≠
      calculateChunkSize s.tensor.schema), hsc, if_neg hbound, hloop]

/-- C10 witness: storing the payload `[1.0, +Inf]` into a shape-2 tensor with
chunk shape 2 fails with the invalid-value error at position 1, the disk blob
is untouched, and position 0 of the buffer already holds the 1.0 prefix. -/
theorem storeChunk_invalid_value_partial_write_witness :
    StoreChunk
      { tensor :=
          { name := "t"
            schema := ⟨[2], "float32", [2], "none"⟩
            data := [0, 7] }
        disk := [9] }
      [0] [0, 0, 128, 63, 0, 0, 128, 127] =
      .fail
        { tensor :=
            { name := "t"
              schema := ⟨[2], "float32", [2], "none"⟩
              data := [1065353216, 7] }
          disk := [9] }
        "invalid value at position 1: NaN or Inf" :=
  storeChunk_invalid_value_partial_write
    { tensor :=
        { name := "t"
          schema := ⟨[2], "float32", [2], "none"⟩
          data := [0, 7] }
      disk := [9] }
    [0] [0] [0, 0, 128, 63, 0, 0, 128, 127] [1065353216] 2139095040 []
    (by decide) (by decide) (by decide) (by decide) (by decide) (by decide)
    (by decide) (by decide) (by decide) (by decide)

/-- When some chunk index violates its per-dimension bound and every
dimension still has a chunk-shape entry, the validation loop reports an
error. -/
theorem checkChunkIndices_isSome (indices : List Int) :
    ∀ (shape chunk : List Int),
      indices.length = shape.length → indices.length ≤ chunk.length →
      (∃ i, i < indices.length ∧
        (indices.getD i 0 < 0 ∨
          (shape.getD i 0 + chunk.getD i 0 - 1).tdiv (chunk.getD i 0) ≤
            indices.getD i 0)) →
      ∃ m, checkChunkIndices indices shape chunk = some m := by
  induction indices with
  | nil =>
    intro shape chunk hlen hclen hbad
    obtain ⟨i, hi, -⟩ := hbad
    exact absurd hi (by simp)
  | cons x xs ih =>
    intro shape chunk hlen hclen hbad
    match shape, chunk with
    | d :: ds, c :: cs =>
      by_cases hx : x < 0
      · exact ⟨"negative index", by simp [checkChunkIndices, if_pos hx]⟩
      · by_cases hceil : (d + c - 1).tdiv c ≤ x
        · exact ⟨"chunk index exceeds dimension size", by
            simp [checkChunkIndices, if_neg hx, if_pos hceil]⟩
        · obtain ⟨i, hi, hb⟩ := hbad
          match i with
          | 0 => simp only [List.getD_cons_zero] at hb; omega
          | i + 1 =>
            obtain ⟨m, hm⟩ := ih ds cs
              (by simpa using hlen) (by simpa using hclen)
              ⟨i, by simpa using hi, by simpa using hb⟩
            exact ⟨m, by simp [checkChunkIndices, if_neg hx, if_neg hceil, hm]⟩

/-- C3 counterexample: on a tensor whose chunk-shape list `[2]` is shorter
than its shape list `[2, 2]`, an out-of-range chunk index in the uncovered
dimension (5, while at most 1 chunk exists along it under any reading) is
not caught by validation; instead of returning a chunk-out-of-range error,
`StoreChunk` reaches `calculateChunkStartIndex`, whose unguarded
`ChunkSize[1]` access panics. -/
theorem storeChunk_short_chunk_shape_crashes :
    StoreChunk
      { tensor :=
          { name := "t"
            schema := ⟨[2, 2], "float32", [2], "none"⟩
            data := [0, 0, 0, 0] }
        disk := [] }
      [0, 5] [0, 0, 128, 63, 0, 0, 0, 64] = .crash "index out of range" := by
  decide

/-- C3 amended. For tensors whose chunk-shape list covers every dimension
(`rank ≤ len(chunk_shape)`) with positive entries — both guaranteed by the
schema invariant, and the positivity keeping Go's per-dimension division
`(shape[i]+chunk[i]-1)/chunk[i]` defined — any chunk-index vector of rank
length containing a negative index or one at or above
`ceil(shape[i] / chunk_shape[i])` makes `StoreChunk` return an error with
the state unchanged — nothing written, nothing saved — and makes `GetChunk`
likewise return an error. -/
theorem storeChunk_invalid_index_rejected (s : TensorState)
    (indices : List Int) (payload : List Nat)
    (hrank : indices.length = s.tensor.schema.Shape.length)
    (hcov : indices.length ≤ s.tensor.schema.ChunkSize.length)
    (hcpos : ∀ c ∈ s.tensor.schema.ChunkSize, 0 < c)
    (hbad : ∃ i, i < indices.length ∧
      (indices.getD i 0 < 0 ∨
        (s.tensor.schema.Shape.getD i 0 + s.tensor.schema.ChunkSize.getD i 0 - 1).tdiv
          (s.tensor.schema.ChunkSize.getD i 0) ≤ indices.getD i 0)) :
    (∃ m, StoreChunk s indices payload = .fail s m) ∧
      ∃ m, GetChunk s.tensor indices = .fail m := by
  obtain ⟨m, hm⟩ := checkChunkIndices_isSome indices s.tensor.schema.Shape
    s.tensor.schema.ChunkSize hrank hcov hbad
  constructor
  · exact ⟨m, by
      simp [StoreChunk, if_neg (by omega : ¬indices.length ≠ s.tensor.schema.Shape.length),
        hm]⟩
  · exact ⟨m, by
      simp [GetChunk, if_neg (by omega : ¬indices.length ≠ s.tensor.schema.Shape.length),
        hm]⟩

/-- C3 amended witness: chunk index 2 on a shape-4 tensor with chunk shape 2
(two chunks, indices 0 and 1) is rejected by both `StoreChunk` and
`GetChunk` with the state unchanged. -/
theorem storeChunk_invalid_index_rejected_witness :
    (∃ m, StoreChunk
      { tensor :=
          { name := "t"
            schema := ⟨[4], "float32", [2], "none"⟩
            data := [0, 0, 0, 0] }
        disk := [] } [2] [] =
      .fail
        { tensor :=
            { name := "t"
              schema := ⟨[4], "float32", [2], "none"⟩
              data := [0, 0, 0, 0] }
          disk := [] } m) ∧
    ∃ m, GetChunk
      { name := "t"
        schema := ⟨[4], "float32", [2], "none"⟩
        data := [0, 0, 0, 0] } [2] = .fail m :=
  storeChunk_invalid_index_rejected
    { tensor :=
        { name := "t"
          schema := ⟨[4], "float32", [2], "none"⟩
          data := [0, 0, 0, 0] }
      disk := [] }
    [2] [] (by decide) (by decide) (by decide) ⟨0, by decide⟩

/-- Models the `Range` argument of `Slice`: a half-open interval per
dimension. -/
structure Range where
  Start : Int
  End : Int
deriving Repr, DecidableEq

/-- The range-validation loop of `Slice`: start non-negative, end within the
dimension, start strictly below end.  The second, separate emptiness check of
the source is subsumed by the first but reproduced. -/
def checkRanges : List Range → List Int → Option String
  | [], _ => none
  | r :: rs, dim :: dims =>
    if r.Start < 0 ∨ dim < r.End ∨ r.End ≤ r.Start then some "invalid range"
    else if r.End - r.Start ≤ 0 then some "empty slice"
    else checkRanges rs dims
  | _ :: _, [] => none

/-- One iteration of the copy loop of `Slice`: decode the output flat index
over the new shape, add the range starts, flat-index into the source shape,
bounds-check, and read one element. -/
def sliceElem (t : Tensor) (ranges : List Range) (newShape : List Int)
    (destIdx : Nat) : Except String Nat :=
  let destIndices := flatToMultiDimIndex (destIdx : Int) newShape
  let srcIndices := List.zipWith (fun di r => di + r.Start) destIndices ranges
  let srcFlatIdx := calculateFlatIndex t.schema.Shape srcIndices
  if srcFlatIdx < 0 ∨ (t.data.length : Int) ≤ srcFlatIdx then
    .error "source index out of bounds"
  else .ok (t.data.getD srcFlatIdx.toNat 0)

/-- Runs a per-index computation over a list, stopping at the first error,
as the copy loop of `Slice` does with its early return. -/
def exceptMapNat (f : Nat → Except String Nat) : List Nat → Except String (List Nat)
  | [] => .ok []
  | a :: l =>
    match f a with
    | .error e => .error e
    | .ok b =>
      match exceptMapNat f l with
      | .error e => .error e
      | .ok bs => .ok (b :: bs)

/-- Models `Slice`: validates the ranges, builds the new shape and total
size, enforces the 1,000,000-element cap, then fills the output buffer one
output flat index at a time.  The Go result name carries a random uuid
suffix; a fixed suffix stands in for it here. -/
def Slice (t : Tensor) (ranges : List Range) : Except String Tensor :=
  if ranges.length ≠ t.schema.Shape.length then
    .error "ranges length does not match tensor dimensions"
  else match checkRanges ranges t.schema.Shape with
  | some msg => .error msg
  | none =>
    let newShape := ranges.map fun r => r.End - r.Start
    let totalSize := prodInt newShape
    if 1000000 < totalSize then .error "slice too large"
    else match exceptMapNat (sliceElem t ranges newShape)
      (List.range totalSize.toNat) with
    | .error e => .error e
    | .ok data' =>
      .ok { name := t.name ++ "_slice"
            schema := { t.schema with Shape := newShape }
            data := data' }

/-- Outcome of `Reshape`: success, an error return, or a Go runtime
panic. -/
inductive ReshapeResult where
  | ok (s : TensorState)
  | error (msg : String)
  | crash (msg : String)
deriving Repr, DecidableEq

/-- Models `Reshape`: only the element counts of the old and new shape are
compared — with Go's wrapping `int64` products — and on a match the new
shape is installed verbatim, without any positivity or rank validation,
before the buffer is persisted.  The persistence step converts the buffer
with `float32SliceToBytes`, whose `&slice[0]` panics on an empty buffer. -/
def Reshape (s : TensorState) (newShape : List Int) : ReshapeResult :=
  let oldSize := prodInt64 s.tensor.schema.Shape
  let newSize := prodInt64 newShape
  if oldSize ≠ newSize then .error "cannot reshape: size mismatch"
  else if s.tensor.data.isEmpty then .crash "index out of range"
  else .ok
    { tensor :=
        { s.tensor with schema := { s.tensor.schema with Shape := newShape } }
      disk := float32SliceToBytes s.tensor.data }

/-- Valid ranges pass the range-validation loop. -/
theorem checkRanges_none (ranges : List Range) (shape : List Int)
    (h : List.Forall₂ (fun (r : Range) (dim : Int) =>
      0 ≤ r.Start ∧ r.Start < r.End ∧ r.End ≤ dim) ranges shape) :
    checkRanges ranges shape = none := by
  induction h with
  | nil => rfl
  | cons hrd htail ih =>
    obtain ⟨h1, h2, h3⟩ := hrd
    simp only [checkRanges]
    rw [if_neg (by omega), if_neg (by omega)]
    exact ih

/-- Decoding any non-negative flat index over positive dimensions produces
in-range coordinates (the reversed form). -/
theorem flatToMultiRev_bounds :
    ∀ (dims : List Int) (flat : Int), 0 ≤ flat → (∀ d ∈ dims, 0 < d) →
      List.Forall₂ (fun x d => 0 ≤ x ∧ x < d) (flatToMultiRev flat dims) dims := by
  intro dims
  induction dims with
  | nil => intro flat hf hd; exact List.Forall₂.nil
  | cons d ds ih =>
    intro flat hf hd
    have hdpos : 0 < d := hd d (by simp)
    have hdne : d ≠ 0 := by omega
    refine List.Forall₂.cons ?_ (ih (flat.tdiv d) ?_ fun x hx => hd x (by simp [hx]))
    · rw [Int.tmod_eq_emod hf (le_of_lt hdpos)]
      exact ⟨Int.emod_nonneg flat hdne, Int.emod_lt_of_pos flat hdpos⟩
    · rw [Int.tdiv_eq_ediv hf (le_of_lt hdpos)]
      exact Int.ediv_nonneg hf (le_of_lt hdpos)

/-- Decoding any non-negative flat index over a positive shape produces
in-range coordinates. -/
theorem flatToMultiDimIndex_bounds (shape : List Int) (flat : Int)
    (hf : 0 ≤ flat) (hd : ∀ d ∈ shape, 0 < d) :
    List.Forall₂ (fun x d => 0 ≤ x ∧ x < d) (flatToMultiDimIndex flat shape) shape := by
  have := flatToMultiRev_bounds shape.reverse flat hf (by
    intro d hdm; exact hd d (List.mem_reverse.mp hdm))
  have hrev := List.rel_reverse this
  rwa [List.reverse_reverse] at hrev

/-- In-range coordinates produce an in-range row-major flat index. -/
theorem rmFlat_bounds :
    ∀ (shape idxs : List Int),
      List.Forall₂ (fun x d => 0 ≤ x ∧ x < d) idxs shape →
      0 ≤ rmFlat shape idxs ∧ rmFlat shape idxs < prodInt shape := by
  intro shape idxs h
  induction h with
  | nil => simp [rmFlat, prodInt_nil]
  | @cons x d idxs' dims hxd htail ih =>
    obtain ⟨hx0, hxd'⟩ := hxd
    obtain ⟨hr0, hrlt⟩ := ih
    have hppos : 0 < prodInt dims := by omega
    constructor
    · simp only [rmFlat]
      have : 0 ≤ x * prodInt dims := mul_nonneg hx0 (le_of_lt hppos)
      omega
    · simp only [rmFlat, prodInt_cons]
      have h1 : x * prodInt dims + rmFlat dims idxs' < (x + 1) * prodInt dims := by
        rw [add_mul, one_mul]
        omega
      have h2 : (x + 1) * prodInt dims ≤ d * prodInt dims :=
        mul_le_mul_of_nonneg_right (by omega) (le_of_lt hppos)
      omega

/-- Adding the range starts to in-range output coordinates produces in-range
source coordinates. -/
theorem sliceSrc_bounds :
    ∀ (ranges : List Range) (shape dest : List Int),
      List.Forall₂ (fun (r : Range) (dim : Int) =>
        0 ≤ r.Start ∧ r.Start < r.End ∧ r.End ≤ dim) ranges shape →
      List.Forall₂ (fun x d => 0 ≤ x ∧ x < d) dest
        (ranges.map fun r => r.End - r.Start) →
      List.Forall₂ (fun x d => 0 ≤ x ∧ x < d)
        (List.zipWith (fun di r => di + r.Start) dest ranges) shape := by
  intro ranges
  induction ranges with
  | nil =>
    intro shape dest h1 h2
    cases h1
    cases h2
    simp
  | cons r rs ih =>
    intro shape dest h1 h2
    cases h1 with
    | cons hrd h1tail =>
      cases h2 with
      | cons hxd h2tail =>
        rename_i dim dims x xs
        obtain ⟨ha, hb, hc⟩ := hrd
        obtain ⟨hd, he⟩ := hxd
        have he' : x < r.End - r.Start := he
        simp only [List.zipWith_cons_cons]
        exact List.Forall₂.cons ⟨by omega, by omega⟩ (ih dims xs h1tail h2tail)

/-- An error-free pass of the copy loop produces exactly the per-index
values. -/
theorem exceptMapNat_ok (f : Nat → Except String Nat) (g : Nat → Nat) :
    ∀ l : List Nat, (∀ a ∈ l, f a = .ok (g a)) →
      exceptMapNat f l = .ok (l.map g) := by
  intro l
  induction l with
  | nil => intro h; rfl
  | cons a l ih =>
    intro h
    simp only [exceptMapNat, h a (by simp), ih fun b hb => h b (by simp [hb]),
      List.map_cons]

/-- Element lookup in a mapped index list. -/
theorem map_range_getD (g : Nat → Nat) (n d : Nat) (h : d < n) :
    ((List.range n).map g).getD d 0 = g d := by
  rw [List.getD_eq_getElem?_getD, List.getElem?_map, List.getElem?_range h]
  rfl

/-- The reversed decode has one coordinate per dimension. -/
theorem flatToMultiRev_length :
    ∀ (dims : List Int) (flat : Int), (flatToMultiRev flat dims).length = dims.length := by
  intro dims
  induction dims with
  | nil => intro flat; rfl
  | cons d ds ih => intro flat; simp [flatToMultiRev, ih]

/-- The decode has one coordinate per dimension. -/
theorem flatToMultiDimIndex_length (shape : List Int) (flat : Int) :
    (flatToMultiDimIndex flat shape).length = shape.length := by
  simp [flatToMultiDimIndex, flatToMultiRev_length]

/-- Valid ranges produce positive output dimensions. -/
theorem ranges_pos (ranges : List Range) (shape : List Int)
    (h : List.Forall₂ (fun (r : Range) (dim : Int) =>
      0 ≤ r.Start ∧ r.Start < r.End ∧ r.End ≤ dim) ranges shape) :
    ∀ d ∈ ranges.map fun r => r.End - r.Start, 0 < d := by
  induction h with
  | nil => simp
  | cons hrd htail ih =>
    obtain ⟨h1, h2, h3⟩ := hrd
    simp only [List.map_cons, List.mem_cons]
    rintro d (rfl | hd)
    · omega
    · exact ih d hd

/-- A list of positive integers has a positive product. -/
theorem prodInt_pos : ∀ l : List Int, (∀ d ∈ l, 0 < d) → 0 < prodInt l := by
  intro l
  induction l with
  | nil => intro h; simp [prodInt_nil]
  | cons d ds ih =>
    intro h
    rw [prodInt_cons]
    exact mul_pos (h d (by simp)) (ih fun x hx => h x (by simp [hx]))

/-- C6. For every tensor satisfying the buffer invariant and every complete
vector of valid ranges within the size cap, `Slice` succeeds with a tensor of
the same rank whose shape is the per-dimension range width and whose buffer
holds, at every output flat index, the source element addressed by adding
the range starts to the decoded output multi-index. -/
theorem slice_correct (t : Tensor) (ranges : List Range)
    (hlen : ranges.length = t.schema.Shape.length)
    (hr : List.Forall₂ (fun (r : Range) (dim : Int) =>
      0 ≤ r.Start ∧ r.Start < r.End ∧ r.End ≤ dim) ranges t.schema.Shape)
    (hcap : prodInt (ranges.map fun r => r.End - r.Start) ≤ 1000000)
    (hbuf : (t.data.length : Int) = prodInt t.schema.Shape) :
    ∃ t', Slice t ranges = .ok t' ∧
      t'.schema.Shape = (ranges.map fun r => r.End - r.Start) ∧
      t'.schema.Shape.length = t.schema.Shape.length ∧
      (t'.data.length : Int) = prodInt (ranges.map fun r => r.End - r.Start) ∧
      ∀ d : Nat, d < t'.data.length →
        t'.data.getD d 0 = t.data.getD
          (calculateFlatIndex t.schema.Shape
            (List.zipWith (fun di r => di + r.Start)
              (flatToMultiDimIndex (d : Int) (ranges.map fun r => r.End - r.Start))
              ranges)).toNat 0 := by
  have hpos := ranges_pos ranges t.schema.Shape hr
  have hprodpos := prodInt_pos (ranges.map fun r => r.End - r.Start) hpos
  have hn : (((prodInt (ranges.map fun r => r.End - r.Start)).toNat : Nat) : Int) =
      prodInt (ranges.map fun r => r.End - r.Start) :=
    Int.toNat_of_nonneg (le_of_lt hprodpos)
  have helem : ∀ a ∈ List.range (prodInt (ranges.map fun r => r.End - r.Start)).toNat,
      sliceElem t ranges (ranges.map fun r => r.End - r.Start) a =
        .ok (t.data.getD
          (calculateFlatIndex t.schema.Shape
            (List.zipWith (fun di r => di + r.Start)
              (flatToMultiDimIndex (a : Int) (ranges.map fun r => r.End - r.Start))
              ranges)).toNat 0) := by
    intro a ha
    have hdest := flatToMultiDimIndex_bounds (ranges.map fun r => r.End - r.Start)
      (a : Int) (by omega) hpos
    have hsrc := sliceSrc_bounds ranges t.schema.Shape
      (flatToMultiDimIndex (a : Int) (ranges.map fun r => r.End - r.Start)) hr hdest
    have hsrclen : (List.zipWith (fun di r => di + r.Start)
        (flatToMultiDimIndex (a : Int) (ranges.map fun r => r.End - r.Start))
        ranges).length = t.schema.Shape.length := by
      rw [List.length_zipWith, flatToMultiDimIndex_length, List.length_map]
      omega
    have hflat := rmFlat_bounds t.schema.Shape _ hsrc
    have hflat_eq : calculateFlatIndex t.schema.Shape
        (List.zipWith (fun di r => di + r.Start)
          (flatToMultiDimIndex (a : Int) (ranges.map fun r => r.End - r.Start))
          ranges) =
        rmFlat t.schema.Shape
          (List.zipWith (fun di r => di + r.Start)
            (flatToMultiDimIndex (a : Int) (ranges.map fun r => r.End - r.Start))
            ranges) := by
      unfold calculateFlatIndex
      rw [if_neg (by omega)]
    simp only [sliceElem]
    rw [if_neg (by rw [hflat_eq]; push_neg; exact ⟨hflat.1, by omega⟩)]
  obtain hmap := exceptMapNat_ok _ _ _ helem
  have hSlice : Slice t ranges = .ok
      { name := t.name ++ "_slice"
        schema := { t.schema with Shape := ranges.map fun r => r.End - r.Start }
        data := (List.range
            (prodInt (ranges.map fun r => r.End - r.Start)).toNat).map
          fun a : Nat => t.data.getD
            (calculateFlatIndex t.schema.Shape
              (List.zipWith (fun di r => di + r.Start)
                (flatToMultiDimIndex (a : Int)
                  (ranges.map fun r => r.End - r.Start))
                ranges)).toNat 0 } := by
    simp only [Slice, if_neg (by omega : ¬ranges.length ≠ t.schema.Shape.length),
      checkRanges_none ranges t.schema.Shape hr,
      if_neg (by omega :
        ¬(1000000 : Int) < prodInt (ranges.map fun r => r.End - r.Start)), hmap]
  refine ⟨_, hSlice, rfl, ?_, ?_, ?_⟩
  · simp only [List.length_map]; omega
  · simp only [List.length_map, List.length_range]
    exact hn
  · intro d hd
    simp only [List.length_map, List.length_range] at hd
    exact map_range_getD _ _ d hd

/-- C6 witness: slicing rows 0..1 and columns 1..2 out of the 2x2 tensor
with buffer `[10, 11, 12, 13]` succeeds, yields shape `[1, 1]`, and copies
the element at multi-index (0, 1). -/
theorem slice_correct_witness :
    ∃ t', Slice
      { name := "t"
        schema := ⟨[2, 2], "float32", [2, 2], "none"⟩
        data := [10, 11, 12, 13] } [⟨0, 1⟩, ⟨1, 2⟩] = .ok t' ∧
      t'.schema.Shape = ([⟨0, 1⟩, ⟨1, 2⟩] : List Range).map
        (fun r => r.End - r.Start) ∧
      t'.schema.Shape.length = ([2, 2] : List Int).length ∧
      (t'.data.length : Int) =
        prodInt (([⟨0, 1⟩, ⟨1, 2⟩] : List Range).map fun r => r.End - r.Start) ∧
      ∀ d : Nat, d < t'.data.length →
        t'.data.getD d 0 = ([10, 11, 12, 13] : List Nat).getD
          (calculateFlatIndex [2, 2]
            (List.zipWith (fun di r => di + r.Start)
              (flatToMultiDimIndex (d : Int)
                (([⟨0, 1⟩, ⟨1, 2⟩] : List Range).map fun r => r.End - r.Start))
              ([⟨0, 1⟩, ⟨1, 2⟩] : List Range))).toNat 0 :=
  slice_correct
    { name := "t"
      schema := ⟨[2, 2], "float32", [2, 2], "none"⟩
      data := [10, 11, 12, 13] }
    [⟨0, 1⟩, ⟨1, 2⟩]
    (by decide)
    (List.Forall₂.cons (by decide) (List.Forall₂.cons (by decide) List.Forall₂.nil))
    (by decide) (by decide)

/-- C7 counterexample: `Reshape` accepts the new shape `[-2, -2]` on a tensor
of shape `[4]` — the products agree (4) — and installs the non-positive
shape, breaking the invariant that shapes are lists of positive integers. -/
theorem reshape_installs_nonpositive_shape :
    Reshape
      { tensor :=
          { name := "t"
            schema := ⟨[4], "float32", [4], "none"⟩
            data := [0, 0, 0, 0] }
        disk := [] } [-2, -2] =
      .ok
        { tensor :=
            { name := "t"
              schema := ⟨[-2, -2], "float32", [4], "none"⟩
              data := [0, 0, 0, 0] }
          disk := [0, 0, 0, 0, 0, 0, 0, 0, 0, 0, 0, 0, 0, 0, 0, 0] } ∧
    ¬∀ d ∈ ([-2, -2] : List Int), 0 < d := by
  constructor
  · rfl
  · decide

/-- C7 amended. On a tensor with a non-empty buffer, `Reshape` checks only
that the element counts agree — compared as Go's wrapping `int64` products —
and on a match it succeeds, keeping the buffer and installing the new shape
verbatim, so the shape invariant (positive entries, rank at least 1) is
preserved exactly when the caller's new shape itself satisfies it; on a
count mismatch it fails.  No positivity or rank validation is performed. -/
theorem reshape_element_count_only (s : TensorState) (newShape : List Int)
    (hpos : ∀ d ∈ newShape, 0 < d) (hne : newShape ≠ [])
    (hdata : s.tensor.data ≠ [])
    (hsize : prodInt64 newShape = prodInt64 s.tensor.schema.Shape) :
    (∃ s', Reshape s newShape = .ok s' ∧
      s'.tensor.schema.Shape = newShape ∧
      s'.tensor.data = s.tensor.data ∧
      (∀ d ∈ s'.tensor.schema.Shape, 0 < d) ∧
      1 ≤ s'.tensor.schema.Shape.length) ∧
    ∀ badShape : List Int, prodInt64 badShape ≠ prodInt64 s.tensor.schema.Shape →
      Reshape s badShape = .error "cannot reshape: size mismatch" := by
  have hempty : ¬s.tensor.data.isEmpty = true := by
    simp [List.isEmpty_iff, hdata]
  have hok : Reshape s newShape = .ok
      { tensor :=
          { s.tensor with schema := { s.tensor.schema with Shape := newShape } }
        disk := float32SliceToBytes s.tensor.data } := by
    simp only [Reshape]
    rw [if_neg (by omega), if_neg hempty]
  constructor
  · refine ⟨_, hok, rfl, rfl, hpos, ?_⟩
    cases newShape with
    | nil => exact absurd rfl hne
    | cons d ds => simp
  · intro badShape hbs
    simp only [Reshape]
    rw [if_pos (by omega)]

/-- C7 witness: reshaping a shape-4 tensor to `[2, 2]` succeeds with the
invariant intact, and any shape of a different element count is rejected. -/
theorem reshape_element_count_only_witness :
    (∃ s', Reshape
      { tensor :=
          { name := "t"
            schema := ⟨[4], "float32", [4], "none"⟩
            data := [5, 6, 7, 8] }
        disk := [] } [2, 2] = .ok s' ∧
      s'.tensor.schema.Shape = [2, 2] ∧
      s'.tensor.data = [5, 6, 7, 8] ∧
      (∀ d ∈ s'.tensor.schema.Shape, 0 < d) ∧
      1 ≤ s'.tensor.schema.Shape.length) ∧
    ∀ badShape : List Int,
      prodInt64 badShape ≠ prodInt64 ([4] : List Int) →
      Reshape
        { tensor :=
            { name := "t"
              schema := ⟨[4], "float32", [4], "none"⟩
              data := [5, 6, 7, 8] }
          disk := [] } badShape = .error "cannot reshape: size mismatch" :=
  reshape_element_count_only
    { tensor :=
        { name := "t"
          schema := ⟨[4], "float32", [4], "none"⟩
          data := [5, 6, 7, 8] }
      disk := [] } [2, 2] (by decide) (by decide) (by decide) (by decide)

/-- Models the engine catalog state of `engineImpl`: the started flag, the
in-memory tensor map (`e.tensors`, unique keys), the set of names registered
in the sqlite `tensors` table, and the on-disk blob files.  The relational
tables play no part in any claim and are omitted. -/
structure EngineState where
  started : Bool
  tensors : List (String × Tensor)
  dbTensors : List String
  blobs : List (String × List Nat)
deriving Repr, DecidableEq

/-- Outcome of `CreateTensor`: Go mutates the engine and returns an `error`,
so both ordinary outcomes carry the resulting engine state; a `crash`
models a Go runtime panic, which aborts the process. -/
inductive CreateResult where
  | ok (e : EngineState)
  | fail (e : EngineState) (msg : String)
  | crash (msg : String)
deriving Repr, DecidableEq

/-- Models `calculateTensorSize`: the product of the shape dimensions,
computed with Go's wrapping `int64` multiplication. -/
def calculateTensorSize (schema : TensorSchema) : Int := prodInt64 schema.Shape

/-- The tensor instance `CreateTensor` builds: the given schema over a zero
buffer of the schema's element count. -/
def mkZeroTensor (name : String) (schema : TensorSchema) : Tensor :=
  { name := name, schema := schema
    data := List.replicate (calculateTensorSize schema).toNat 0 }

/-- Models `CreateTensor` from the engine: started check; existence check
against the in-memory map only; schema serialization (which cannot fail for
this data and is modelled as succeeding); the sqlite insert, which fails
exactly on a primary-key conflict (the name already has a row); the
in-memory registration with a zero buffer; and the blob write, whose
possible I/O failure is injected through `saveOk`.  Two panics of the source
are modelled as crashes: `make([]float32, n)` panics for a negative wrapped
element count, and `save`'s `float32SliceToBytes` panics (`&slice[0]`) on an
empty buffer.  On a failed blob write the in-memory entry is deleted
(`delete(e.tensors, name)`, the filter below, keys being unique), but the
sqlite row inserted beforehand is left in place. -/
def CreateTensor (e : EngineState) (name : String) (schema : TensorSchema)
    (saveOk : Bool) : CreateResult :=
  if ¬e.started then .fail e "engine not started"
  else if e.tensors.any fun p => p.1 == name then .fail e "tensor already exists"
  else if e.dbTensors.contains name then .fail e "failed to create tensor"
  else if calculateTensorSize schema < 0 then .crash "makeslice: len out of range"
  else if (mkZeroTensor name schema).data.isEmpty then .crash "index out of range"
  else if saveOk then
    .ok { e with
      dbTensors := name :: e.dbTensors
      tensors := (name, mkZeroTensor name schema) :: e.tensors
      blobs := (name, float32SliceToBytes (mkZeroTensor name schema).data) :: e.blobs }
  else
    .fail { e with
      dbTensors := name :: e.dbTensors
      tensors := ((name, mkZeroTensor name schema) :: e.tensors).filter
        fun p => p.1 != name }
      "failed to save tensor"

/-- Filtering out a key absent from an association list changes nothing. -/
theorem filter_ne_of_not_mem (name : String) :
    ∀ l : List (String × Tensor), (l.any fun p => p.1 == name) = false →
      (l.filter fun p => p.1 != name) = l := by
  intro l
  induction l with
  | nil => intro h; rfl
  | cons p l ih =>
    intro h
    simp only [List.any_cons, Bool.or_eq_false_iff] at h
    obtain ⟨h1, h2⟩ := h
    have hcond : (p.1 != name) = true := by simp [bne, h1]
    rw [List.filter_cons, if_pos hcond, ih h2]

/-- C4 counterexample: creating a fresh tensor on a started engine whose
blob write fails returns an error, yet the catalog row inserted at
registration time survives — the name is still listed in the `tensors`
table of the resulting state. -/
theorem createTensor_failed_save_keeps_catalog_row :
    CreateTensor
      { started := true, tensors := [], dbTensors := [], blobs := [] }
      "t" ⟨[2], "float32", [2], "none"⟩ false =
      .fail { started := true, tensors := [], dbTensors := ["t"], blobs := [] }
        "failed to save tensor" := by
  rfl

/-- C4 amended. `CreateTensor` fails when the name is already registered in
the in-memory map (and the state is untouched).  On a fresh name with a
positive element count (so that neither `make` nor the save conversion
panics) whose blob write fails, it returns an error whose state has the
in-memory registration removed — but the catalog-database row inserted at
registration survives the failed create, and no blob is written. -/
theorem createTensor_amended (e : EngineState) (name : String)
    (schema : TensorSchema)
    (hstart : e.started = true)
    (hmem : (e.tensors.any fun p => p.1 == name) = false)
    (hdb : e.dbTensors.contains name = false)
    (hsize : 0 < calculateTensorSize schema) :
    CreateTensor e name schema false =
      .fail { e with dbTensors := name :: e.dbTensors } "failed to save tensor" ∧
    name ∈ name :: e.dbTensors ∧
    ∀ (e2 : EngineState) (saveOk : Bool), e2.started = true →
      (e2.tensors.any fun p => p.1 == name) = true →
      CreateTensor e2 name schema saveOk = .fail e2 "tensor already exists" := by
  have hempty : (mkZeroTensor name schema).data.isEmpty = false := by
    have hne : (mkZeroTensor name schema).data ≠ [] := by
      simp only [mkZeroTensor]
      intro hcontra
      have hlen := congrArg List.length hcontra
      simp only [List.length_replicate, List.length_nil] at hlen
      omega
    simpa [List.isEmpty_iff] using hne
  refine ⟨?_, by simp, ?_⟩
  · have hcond : ((name, mkZeroTensor name schema).1 != name) = false := by
      simp [bne]
    simp only [CreateTensor, hstart, hmem, hdb, List.filter_cons, hcond,
      filter_ne_of_not_mem name e.tensors hmem, hempty]
    simp [show ¬calculateTensorSize schema < 0 by omega]
  · intro e2 saveOk hstart2 hmem2
    simp [CreateTensor, hstart2, hmem2]

/-- C4 witness: on a started empty engine, creating tensor `"t"` with a
failing blob write leaves the catalog row for `"t"` behind, and a second
create against a state that has `"t"` in its map is rejected. -/
theorem createTensor_amended_witness :
    CreateTensor
      { started := true, tensors := [], dbTensors := [], blobs := [] }
      "t" ⟨[2], "float32", [2], "none"⟩ false =
      .fail { started := true, tensors := [], dbTensors := ["t"], blobs := [] }
        "failed to save tensor" ∧
    "t" ∈ ["t"] ∧
    ∀ (e2 : EngineState) (saveOk : Bool), e2.started = true →
      (e2.tensors.any fun p => p.1 == "t") = true →
      CreateTensor e2 "t" ⟨[2], "float32", [2], "none"⟩ saveOk =
        .fail e2 "tensor already exists" :=
  createTensor_amended
    { started := true, tensors := [], dbTensors := [], blobs := [] }
    "t" ⟨[2], "float32", [2], "none"⟩ rfl rfl rfl (by decide)

/-- Whitespace recognized by Go's `strings.TrimSpace` on ASCII input (space,
tab, newline, vertical tab, form feed, carriage return). -/
def isSpaceChar (c : Char) : Bool :=
  c = ' ' || c = '\t' || c = '\n' || c = '\x0b' || c = '\x0c' || c = '\r'

/-- Models `strings.TrimSpace`: strip leading and trailing whitespace. -/
def trimChars (l : List Char) : List Char :=
  ((l.dropWhile isSpaceChar).reverse.dropWhile isSpaceChar).reverse

/-- Raw split on line feeds, as `strings.Split(s, newline)` does: always at
least one part, empty parts preserved. -/
def splitRaw : List Char → List Char → List (List Char)
  | [], acc => [acc.reverse]
  | c :: cs, acc =>
    if c = '\n' then acc.reverse :: splitRaw cs [] else splitRaw cs (c :: acc)

/-- Strips one trailing carriage return, as `bufio.ScanLines` does. -/
def dropCR (l : List Char) : List Char :=
  if l.getLast? = some '\r' then l.dropLast else l

/-- The line sequence produced by `bufio.Scanner` with `ScanLines`: tokens
split at line feeds, no empty token after a final line feed, and no token at
all for empty input; each token has a trailing carriage return stripped. -/
def scanLines (s : List Char) : List (List Char) :=
  match s with
  | [] => []
  | _ =>
    let parts := splitRaw s []
    (if s.getLast? = some '\n' then parts.dropLast else parts).map dropCR

/-- Models `StatementType`; `TQL` is the tensor-dialect kind the spec calls
`TENSOR`. -/
inductive StatementType where
  | SQL
  | TQL
  | Comment
  | Empty
deriving Repr, DecidableEq

/-- Models `Position`: line, column, byte offset. -/
structure Position where
  Line : Nat
  Column : Nat
  Offset : Nat
deriving Repr, DecidableEq

/-- Models `Statement`; the Go field `Type` is a Lean keyword and is named
`Kind` here. -/
structure Statement where
  Text : List Char
  Pos : Position
  Kind : StatementType
deriving Repr, DecidableEq

/-- Models `Script`. -/
structure Script where
  Statements : List Statement
  Source : List Char
deriving Repr, DecidableEq

/-- Uppercasing used for the case-insensitive keyword tests; ASCII-faithful
to `strings.ToUpper`. -/
def toUpperList (l : List Char) : List Char := l.map Char.toUpper

/-- The TQL keyword list of `determineStatementType`, in source order. -/
def tqlKeywords : List (List Char) :=
  ["CREATE TENSOR", "DROP TENSOR", "ALTER TENSOR",
   "SHOW TENSORS", "DESCRIBE TENSOR",
   "COSINE_SIMILARITY", "EUCLIDEAN_DISTANCE",
   "TENSOR_SLICE", "TENSOR_RESHAPE",
   "TRANSPOSE", "MATRIX_MULTIPLY",
   "RELU", "SIGMOID", "TANH",
   "SVD", "EIGENVALUES",
   "CONV1D", "CONV2D",
   "ADD", "MULTIPLY"].map String.data

/-- Case-insensitive literal prefix match, returning the remainder. -/
def dropPrefixCI : List Char → List Char → Option (List Char)
  | [], s => some s
  | _ :: _, [] => none
  | p :: ps, c :: cs =>
    if p.toUpper = c.toUpper then dropPrefixCI ps cs else none

/-- The word characters of Go's regexp class backslash-w. -/
def isWordChar (c : Char) : Bool :=
  ('a' ≤ c && c ≤ 'z') || ('A' ≤ c && c ≤ 'Z') || ('0' ≤ c && c ≤ '9') || c = '_'

/-- The digit characters of Go's regexp class backslash-d. -/
def isDigitChar (c : Char) : Bool := '0' ≤ c && c ≤ '9'

/-- The whitespace characters of Go's regexp class backslash-s. -/
def isRegexSpace (c : Char) : Bool :=
  c = ' ' || c = '\t' || c = '\n' || c = '\x0c' || c = '\r'

/-- Decides the anchored, case-insensitive pattern
`OP(word, optionally a keyword axis argument)` used by
`isStandaloneTensorOperation` for one operation name: the operation, an
opening parenthesis, one or more word characters, optional whitespace, an
optional `, axis = digits` group, optional whitespace, and a closing
parenthesis ending the input.  All the regex's token classes are disjoint,
so this direct scan decides exactly the same language. -/
def matchOpCall (op : String) (s : List Char) : Bool :=
  match dropPrefixCI op.data s with
  | none => false
  | some rest =>
    match rest with
    | '(' :: rest1 =>
      let word := rest1.takeWhile isWordChar
      let rest2 := (rest1.dropWhile isWordChar).dropWhile isRegexSpace
      if word.isEmpty then false
      else
        match rest2 with
        | [')'] => true
        | ',' :: rest3 =>
          match dropPrefixCI "axis".data (rest3.dropWhile isRegexSpace) with
          | none => false
          | some rest4 =>
            match rest4.dropWhile isRegexSpace with
            | '=' :: rest5 =>
              let rest6 := rest5.dropWhile isRegexSpace
              let digits := rest6.takeWhile isDigitChar
              if digits.isEmpty then false
              else
                match (rest6.dropWhile isDigitChar).dropWhile isRegexSpace with
                | [')'] => true
                | _ => false
            | _ => false
        | _ => false
    | _ => false

/-- Models `isStandaloneTensorOperation`: trims, removes a trailing
semicolon, and tests the four aggregate call patterns. -/
def isStandaloneTensorOperation (text : List Char) : Bool :=
  let trimmed := trimChars text
  let trimmed :=
    if trimmed.getLast? = some ';' then trimChars trimmed.dropLast else trimmed
  matchOpCall "SUM" trimmed || matchOpCall "MEAN" trimmed ||
    matchOpCall "MAX" trimmed || matchOpCall "MIN" trimmed

/-- Substring test, as `strings.Contains`. -/
def containsSub (pat : List Char) : List Char → Bool
  | [] => pat.isEmpty
  | c :: cs => pat.isPrefixOf (c :: cs) || containsSub pat cs

/-- Models `determineStatementType`: empty, comment, TQL keyword prefix,
embedded tensor-function call, standalone aggregate call, else SQL. -/
def determineStatementType (text : List Char) : StatementType :=
  let trimmed := trimChars text
  if trimmed.isEmpty then .Empty
  else if ("--".data).isPrefixOf trimmed || ("/*".data).isPrefixOf trimmed then
    .Comment
  else
    let upperText := toUpperList trimmed
    if tqlKeywords.any fun kw => kw.isPrefixOf upperText then .TQL
    else if containsSub ("COSINE_SIMILARITY".data) upperText ||
        containsSub ("EUCLIDEAN_DISTANCE".data) upperText ||
        containsSub ("TENSOR_SLICE".data) upperText ||
        containsSub ("TENSOR_RESHAPE".data) upperText then .TQL
    else if isStandaloneTensorOperation trimmed then .TQL
    else .SQL

/-- The statement-splitting loop of `Parse`, written as a line-at-a-time
state machine: the optional component carries a pending multi-line statement
(accumulated text, start line, start offset).  Empty, comment and
semicolon-terminated lines emit single-line statements and advance the
running byte offset by the line length plus one; a line that opens a
multi-line statement records the current offset as the statement position
but — exactly as in the source — does not add its own length to the running
offset, which only the continuation lines advance. -/
def parseLinesGo : List (List Char) → Nat → Nat →
    Option (List Char × Nat × Nat) → List Statement
  | [], _, _, none => []
  | [], _, _, some (acc, sl, so) =>
    [{ Text := acc, Pos := ⟨sl, 1, so⟩, Kind := determineStatementType acc }]
  | line :: rest, lineNum, off, none =>
    let trimmed := trimChars line
    if trimmed.isEmpty then
      { Text := line, Pos := ⟨lineNum, 1, off⟩, Kind := .Empty } ::
        parseLinesGo rest (lineNum + 1) (off + line.length + 1) none
    else if ("--".data).isPrefixOf trimmed || ("/*".data).isPrefixOf trimmed then
      { Text := line, Pos := ⟨lineNum, 1, off⟩, Kind := .Comment } ::
        parseLinesGo rest (lineNum + 1) (off + line.length + 1) none
    else if trimmed.getLast? = some ';' then
      { Text := line, Pos := ⟨lineNum, 1, off⟩,
        Kind := determineStatementType line } ::
        parseLinesGo rest (lineNum + 1) (off + line.length + 1) none
    else
      parseLinesGo rest (lineNum + 1) off (some (line, lineNum, off))
  | line :: rest, lineNum, off, some (acc, sl, so) =>
    let acc' := acc ++ '\n' :: line
    let off' := off + line.length + 1
    if (trimChars line).getLast? = some ';' then
      { Text := acc', Pos := ⟨sl, 1, so⟩, Kind := determineStatementType acc' } ::
        parseLinesGo rest (lineNum + 1) off' none
    else
      parseLinesGo rest (lineNum + 1) off' (some (acc', sl, so))

/-- Models `Parse`: scan the script into lines, split statements, and retain
the reconstructed source. -/
def Parse (source : List Char) : Script :=
  let lines := scanLines source
  { Statements := parseLinesGo lines 1 0 none
    Source := lines.foldr (fun l acc => l ++ '\n' :: acc) [] }

/-- Models `ScriptError`: a diagnostic with position, message and offending
text. -/
structure ScriptError where
  Pos : Position
  Msg : String
  Text : List Char
deriving Repr, DecidableEq

/-- Outcome of validating one statement: no diagnostic, one diagnostic, or a
Go runtime panic. -/
inductive StmtValidation where
  | ok
  | err (e : ScriptError)
  | crash (msg : String)
deriving Repr, DecidableEq

/-- Outcome of validating a whole script: the collected diagnostics, or a
panic that aborted the walk. -/
inductive ScriptValidation where
  | ok (errs : List ScriptError)
  | crash (msg : String)
deriving Repr, DecidableEq

/-- Models `getLineColumn`: Go slices `p.source[:offset]`, which panics when
`offset` exceeds the source length (modelled as `none`); otherwise the line
is the number of line-feed-separated parts of the prefix and the column is
the length of the last part plus one. -/
def getLineColumn (source : List Char) (offset : Nat) : Option (Nat × Nat) :=
  if source.length < offset then none
  else
    let parts := splitRaw (source.take offset) []
    some (parts.length, (parts.getLast?.getD []).length + 1)

/-- The character walk of `checkBalancedParentheses`.  Only opening
parentheses are ever pushed, so the stack is a depth counter.  An unmatched
closing parenthesis recomputes its position from the validating parser's
source — and inherits `getLineColumn`'s panic; an unmatched opening
parenthesis reports at the statement position after the walk. -/
def checkParensLoop (source : List Char) (stmt : Statement) :
    List Char → Nat → Nat → StmtValidation
  | [], _, depth =>
    if 0 < depth then
      .err ⟨stmt.Pos, "Unmatched opening parenthesis", stmt.Text⟩
    else .ok
  | c :: cs, i, depth =>
    if c = '(' then checkParensLoop source stmt cs (i + 1) (depth + 1)
    else if c = ')' then
      if depth = 0 then
        match getLineColumn source (stmt.Pos.Offset + i) with
        | none => .crash "slice bounds out of range"
        | some (line, col) =>
          .err ⟨⟨line, col, stmt.Pos.Offset + i⟩,
            "Unmatched closing parenthesis", stmt.Text⟩
      else checkParensLoop source stmt cs (i + 1) (depth - 1)
    else checkParensLoop source stmt cs (i + 1) depth

/-- Models `ValidateStatement`, parameterized over the TQL-specific
syntactic validator (`validateTQLStatement`, a battery of regular
expressions); every claim settled here is independent of that validator, so
it is abstracted as a function argument rather than stubbed. -/
def ValidateStatement (tqlV : Statement → StmtValidation) (source : List Char)
    (stmt : Statement) : StmtValidation :=
  if stmt.Kind = .Empty ∨ stmt.Kind = .Comment then .ok
  else if ¬(trimChars stmt.Text).getLast? = some ';' then
    .err ⟨stmt.Pos, "Statement must end with semicolon", stmt.Text⟩
  else
    match checkParensLoop source stmt stmt.Text 0 0 with
    | .ok => if stmt.Kind = .TQL then tqlV stmt else .ok
    | r => r

/-- The statement walk of `ValidateScript`, collecting diagnostics; a panic
aborts the walk as it would abort the Go process. -/
def validateLoop (tqlV : Statement → StmtValidation) (source : List Char) :
    List Statement → ScriptValidation
  | [] => .ok []
  | stmt :: rest =>
    match ValidateStatement tqlV source stmt with
    | .crash m => .crash m
    | .ok =>
      match validateLoop tqlV source rest with
      | .crash m => .crash m
      | .ok errs => .ok errs
    | .err e =>
      match validateLoop tqlV source rest with
      | .crash m => .crash m
      | .ok errs => .ok (e :: errs)

/-- Models `ValidateScript`: it builds a fresh `Parser` value — whose
`source` field is the empty string, not the script's source — and validates
every statement with it. -/
def ValidateScript (tqlV : Statement → StmtValidation) (script : Script) :
    ScriptValidation :=
  validateLoop tqlV [] script.Statements

/-- C8. A statement containing an unmatched closing parenthesis at a
positive byte offset does not produce a positioned diagnostic: because
`ValidateScript` validates with a freshly constructed parser whose source is
empty, `getLineColumn` slices the empty string at a positive offset and
panics.  The crash is independent of the TQL-specific validator. -/
theorem validateScript_crashes_on_unmatched_paren
    (tqlV : Statement → StmtValidation) :
    ValidateScript tqlV (Parse ("x);".data)) = .crash "slice bounds out of range" :=
  rfl

/-- C9. Splitting and classifying the four-line script `-- head` /
`SELECT * FROM users;` / `CREATE TENSOR e (shape [2, 3], dtype float32);` /
`SHOW TENSORS;` yields exactly four statements with non-empty text whose
kinds are COMMENT, SQL, TENSOR, TENSOR (`TQL` is the tensor kind). -/
theorem script_splitting_scenario :
    (Parse ("-- head\nSELECT * FROM users;\nCREATE TENSOR e (shape [2, 3], dtype float32);\nSHOW TENSORS;\n".data)).Statements.map
        (fun st => (st.Kind, st.Text.isEmpty)) =
      [(.Comment, false), (.SQL, false), (.TQL, false), (.TQL, false)] := by
  decide

/-- C2. Position fidelity fails for a statement that follows a multi-line
statement: on the script `A` / `B;` / `C;`, the splitter never adds the
first multi-line line's length to the running offset, so the final
statement `C;` is assigned byte offset 3 — where the script reads `;` —
while its true offset is 5. -/
theorem parse_offset_wrong_after_multiline :
    ((Parse ("A\nB;\nC;\n".data)).Statements.map fun st => (st.Text, st.Pos.Offset)) =
      [("A\nB;".data, 0), ("C;".data, 3)] ∧
    ¬("C;".data).isPrefixOf (("A\nB;\nC;\n".data).drop 3) ∧
    ("C;".data).isPrefixOf (("A\nB;\nC;\n".data).drop 5) := by
  decide

end TelumDB
